import Mathlib

/-!
Verification of the last-archive crawler and RAG server against its
natural-language specification.  Go and JavaScript strings are modelled as
`List Char` (length = number of code units, which is what the programs
measure); maps are modelled as association lists or predicate functions;
floating-point similarity scores are modelled as rationals (the code only
compares them, never does arithmetic beyond `max`); fallible external calls
(URL parsing, HTTP fetches, embedding requests) are oracle parameters.
-/

namespace LastArchive

/-- Program strings (Go / JavaScript) as lists of characters. -/
abbrev Str := List Char

/-- Turn a Lean string literal into a program string. -/
def strL (s : String) : Str := s.data

/-- `strings.ToLower` / `String.prototype.toLowerCase` (ASCII behaviour). -/
def lowerStr (s : Str) : Str := s.map Char.toLower

/-- `startsWithL s p` holds when `p` occurs at the start of `s`
(`strings.HasPrefix` in Go terms, `String.prototype.startsWith` in JS). -/
def startsWithL : Str → Str → Bool
  | _, [] => true
  | [], _ :: _ => false
  | c :: s, d :: p => c == d && startsWithL s p

/-- `strings.HasSuffix s p` / `String.prototype.endsWith`. -/
def endsWithL (s p : Str) : Bool := startsWithL s.reverse p.reverse

/-- `strings.Contains s p` / `String.prototype.includes`. -/
def containsL (s p : Str) : Bool :=
  startsWithL s p ||
    match s with
    | [] => false
    | _ :: rest => containsL rest p

/-- `strings.TrimSpace` / `String.prototype.trim`: drop leading and trailing
whitespace. -/
def trimWs (s : Str) : Str :=
  ((s.dropWhile Char.isWhitespace).reverse.dropWhile Char.isWhitespace).reverse

/- ## Spider: crawl queue (src/spider/functions/queue.go) -/

/-- `models.Link`: a hyperlink found on a page. -/
structure Link where
  text : Str
  url : Str
deriving DecidableEq

/-- The queue-related state of `functions.Crawler`: the shared FIFO,
the dedup sets and the allowed-host set (a Go map, modelled as a
predicate). -/
structure CrawlerState where
  linksQueue : List Link
  queuedUrls : List Str
  visitedUrls : List Str
  allowedHosts : Str → Bool

/-- `utils.Enqueue`: append at the back of the FIFO. -/
def enqueueLink (queue : List Link) (element : Link) : List Link :=
  queue ++ [element]

/-- `Crawler.isAllowedOrigin` (src/spider/functions/page_crawler.go):
parse the URL (the Go stdlib parser is the oracle `parseHost`, returning
the host on success) and look the host up in `AllowedHosts`; a parse
error yields `false`. -/
def isAllowedOrigin (parseHost : Str → Option Str) (st : CrawlerState)
    (urlStr : Str) : Bool :=
  match parseHost urlStr with
  | none => false
  | some h => st.allowedHosts h

/-- `Crawler.safeEnqueue` (src/spider/functions/queue.go): drop the link if
its URL is already queued, already visited, or not of an allowed origin;
otherwise append it to the FIFO and record the URL in `QueuedUrls`. -/
def safeEnqueue (parseHost : Str → Option Str) (st : CrawlerState)
    (link : Link) : CrawlerState :=
  if st.queuedUrls.contains link.url then st
  else if st.visitedUrls.contains link.url then st
  else if !(isAllowedOrigin parseHost st link.url) then st
  else { st with
          linksQueue := enqueueLink st.linksQueue link
          queuedUrls := link.url :: st.queuedUrls }

/- ## Spider: page crawler (src/spider/functions/page_crawler.go) -/

/-- The extension list of `Crawler.shouldSkipURL`, verbatim from the
source. -/
def binaryExtensions : List Str :=
  [strL ".jpg", strL ".jpeg", strL ".png", strL ".gif", strL ".bmp",
   strL ".webp", strL ".svg",
   strL ".doc", strL ".docx", strL ".xls", strL ".xlsx", strL ".ppt",
   strL ".pptx",
   strL ".zip", strL ".rar", strL ".tar", strL ".gz", strL ".7z",
   strL ".mp3", strL ".mp4", strL ".wav", strL ".avi", strL ".mov",
   strL ".wmv",
   strL ".css", strL ".js", strL ".ico", strL ".xml", strL ".json",
   strL ".php"]

/-- `Crawler.shouldSkipURL`: lowercase the URL, skip when it ends with a
known binary extension or contains a download-style query marker. -/
def shouldSkipURL (url : Str) : Bool :=
  let lowerURL := lowerStr url
  binaryExtensions.any (fun ext => endsWithL lowerURL ext) ||
    containsL lowerURL (strL "download=") ||
    containsL lowerURL (strL "attachment=") ||
    containsL lowerURL (strL "export=")

/-- The content types `Crawler.isHTMLContent` treats as HTML. -/
def htmlTypes : List Str :=
  [strL "text/html", strL "application/xhtml+xml", strL "text/plain"]

/-- `Crawler.isHTMLContent`: an empty Content-Type counts as HTML;
otherwise the lowercased header must contain one of `htmlTypes`. -/
def isHTMLContent (contentType : Str) : Bool :=
  if contentType == [] then true
  else
    let lowerType := lowerStr contentType
    htmlTypes.any (fun t => containsL lowerType t)

/-- `minContentLength` constant (src/spider/functions/types.go). -/
def minContentLength : Nat := 500

/-- The externally observable side effects of `Crawler.CrawlPage`, in
program order. -/
inductive CrawlStep where
  | robotsCheck
  | httpFetch
  | extractData
  | persistPage
deriving DecidableEq

/-- Result of one `Crawler.CrawlPage` call. -/
inductive CrawlOutcome where
  | alreadyVisited
  | skippedBinary
  | parseFailed
  | robotsBlocked
  | fetchFailed
  | badStatus
  | skippedNonHTML
  | extractFailed
  | contentTooShort
  | storeFailed
  | stored
deriving DecidableEq

/-- HTTP response data consumed by `CrawlPage`. -/
structure FetchResult where
  status : Nat
  contentType : Str

/-- Oracles for the external effects of `CrawlPage`: the URL parser, the
robots decision, the HTTP fetch, the extractor result (`MainContent`) and
the store outcome. -/
structure CrawlEnv where
  parseHost : Str → Option Str
  robotsAllowed : Bool
  fetchResult : Option FetchResult
  extractedContent : Option Str
  storeOk : Bool

/-- `Crawler.CrawlPage` (src/spider/functions/page_crawler.go), as the list
of effects it performs and the outcome it reaches, mirroring the source's
control flow: visited check, `shouldSkipURL`, URL parse, robots check,
fetch, status check, `isHTMLContent`, extraction, minimum-length check,
store. -/
def crawlPage (env : CrawlEnv) (st : CrawlerState) (websiteUrl : Str) :
    List CrawlStep × CrawlOutcome :=
  if st.visitedUrls.contains websiteUrl then ([], .alreadyVisited)
  else if shouldSkipURL websiteUrl then ([], .skippedBinary)
  else
    match env.parseHost websiteUrl with
    | none => ([], .parseFailed)
    | some _ =>
      if !env.robotsAllowed then ([.robotsCheck], .robotsBlocked)
      else
        match env.fetchResult with
        | none => ([.robotsCheck, .httpFetch], .fetchFailed)
        | some r =>
          if r.status ≠ 200 then ([.robotsCheck, .httpFetch], .badStatus)
          else if !isHTMLContent r.contentType then
            ([.robotsCheck, .httpFetch], .skippedNonHTML)
          else
            match env.extractedContent with
            | none => ([.robotsCheck, .httpFetch, .extractData], .extractFailed)
            | some content =>
              if content.length < minContentLength then
                ([.robotsCheck, .httpFetch, .extractData], .contentTooShort)
              else if env.storeOk then
                ([.robotsCheck, .httpFetch, .extractData, .persistPage], .stored)
              else
                ([.robotsCheck, .httpFetch, .extractData, .persistPage], .storeFailed)

/- ## Server: group-wise PDF filtering
(src/server/src/services/qdrant.service.js) -/

/-- One formatted PDF search hit (`formatPDFResults` output shape). Scores
are JS numbers, modelled as rationals. -/
structure PDFHit where
  score : ℚ
  pdfUrl : String
  pageUrl : String
  content : String
  chunkIndex : Int
deriving DecidableEq

/-- `this.PDF_MIN_SIMILARITY = 0.55`. -/
def PDF_MIN_SIMILARITY : ℚ := 55 / 100

/-- Key order of the `Map` built by `filterPDFsBySimilarity`: distinct
`pdfUrl` values in order of first occurrence (`seen` accumulates the keys
already emitted). -/
def groupKeys (seen : List String) : List PDFHit → List String
  | [] => []
  | h :: t =>
    if seen.contains h.pdfUrl then groupKeys seen t
    else h.pdfUrl :: groupKeys (h.pdfUrl :: seen) t

/-- The group a `pdfUrl` key maps to: all hits with that URL, in input
order (each hit is pushed onto its group while traversing the input). -/
def groupOf (pdfResults : List PDFHit) (url : String) : List PDFHit :=
  pdfResults.filter (fun r => r.pdfUrl == url)

/-- `Math.max(...chunks.map(c => c.score))` over a group
(`none` for an empty group, which the code never builds). -/
def maxScoreQ : List PDFHit → Option ℚ
  | [] => none
  | h :: t =>
    match maxScoreQ t with
    | none => some h.score
    | some m => some (max h.score m)

/-- The keep decision for one group: its maximum chunk score reaches
`PDF_MIN_SIMILARITY`. -/
def keepGroup (chunks : List PDFHit) : Bool :=
  match maxScoreQ chunks with
  | none => false
  | some m => PDF_MIN_SIMILARITY ≤ m

/-- `filterPDFsBySimilarity`: group hits by `pdfUrl`, keep every chunk of
a group whose maximum score reaches the threshold, drop the whole group
otherwise; surviving groups are emitted in map-insertion order. -/
def filterPDFsBySimilarity (pdfResults : List PDFHit) : List PDFHit :=
  (groupKeys [] pdfResults).flatMap (fun k =>
    if keepGroup (groupOf pdfResults k) then groupOf pdfResults k else [])

/-- Occurrence count of a hit in a hit list (to state that filtering
neither adds, drops nor modifies hits beyond the group decision). -/
def hitCount (x : PDFHit) : List PDFHit → Nat
  | [] => 0
  | h :: t => (if h = x then 1 else 0) + hitCount x t

/- ## Server: RAG context assembly (rag.service.js, src/unnamed/part_004) -/

/-- A document entering `prepareOptimizedContext`: a search hit tagged with
its source type (`"page"` or `"pdf"`). -/
structure RagDoc where
  dtype : String
  content : Str
  score : ℚ
deriving DecidableEq

/-- One insertion step of the score-descending sort
(`docs.sort((a, b) => b.score - a.score)`, a stable sort). -/
def insertDescDoc (d : RagDoc) : List RagDoc → List RagDoc
  | [] => [d]
  | e :: t => if e.score ≤ d.score then d :: e :: t else e :: insertDescDoc d t

/-- Stable sort of documents by descending score. -/
def sortByScoreDesc (docs : List RagDoc) : List RagDoc :=
  docs.foldr insertDescDoc []

/-- `MAX_CONTEXT_LENGTH` in `prepareOptimizedContext`. -/
def MAX_CONTEXT_LENGTH : Nat := 4000

/-- `MAX_PER_DOC` in `prepareOptimizedContext`. -/
def MAX_PER_DOC : Nat := 1000

/-- Per-document truncation:
`content.length > 1000 ? content.substring(0, 1000) + '...' : content`. -/
def truncContent (content : Str) : Str :=
  if MAX_PER_DOC < content.length then content.take MAX_PER_DOC ++ strL "..."
  else content

/-- The accumulation loop of `prepareOptimizedContext`: walk the sorted
documents keeping a running total of truncated lengths; `break` (not skip)
at the first document that would push the total over `MAX_CONTEXT_LENGTH`;
route each kept document into the page or PDF list with its truncated
content. -/
def selectDocs : List RagDoc → Nat → List RagDoc × List RagDoc
  | [], _ => ([], [])
  | d :: rest, total =>
    let tc := truncContent d.content
    if MAX_CONTEXT_LENGTH < total + tc.length then ([], [])
    else
      let res := selectDocs rest (total + tc.length)
      if d.dtype == "page" then ({ d with content := tc } :: res.1, res.2)
      else (res.1, { d with content := tc } :: res.2)

/-- `prepareOptimizedContext`: sort by score descending, then accumulate;
returns the selected `(pages, pdfs)`. -/
def prepareOptimizedContext (finalDocs : List RagDoc) :
    List RagDoc × List RagDoc :=
  selectDocs (sortByScoreDesc finalDocs) 0

/-- Total content length contributed by a selected document list. -/
def totalLen (docs : List RagDoc) : Nat :=
  (docs.map (fun d => d.content.length)).sum

/- ## Server: follow-up query detection (rag.service.js) -/

/-- The follow-up phrase list of `isFollowUpQuery`, verbatim. -/
def followUpPatterns : List Str :=
  [strL "continue", strL "go on", strL "tell me more", strL "more details",
   strL "elaborate", strL "explain more", strL "keep going", strL "and then",
   strL "what else", strL "anything else", strL "more about",
   strL "expand on", strL "can you continue", strL "please continue",
   strL "more information", strL "tell me about that", strL "what about",
   strL "how about"]

/-- `query.toLowerCase().trim()`. -/
def normalizeQuery (query : Str) : Str := trimWs (lowerStr query)

/-- One loop iteration of `isFollowUpQuery`:
`normalized === pattern || normalized.startsWith(pattern + ' ') ||
normalized.startsWith(pattern + '?')`. -/
def patternHit (normalized p : Str) : Bool :=
  normalized == p || startsWithL normalized (p ++ strL " ") ||
    startsWithL normalized (p ++ strL "?")

/-- Worker for `jsSplitWs`; `acc` is the current piece, reversed. A
whitespace run ends the current piece and is consumed whole, matching
`String.prototype.split(/\s+/)` (so a leading run yields a leading empty
piece and a trailing run a trailing empty piece). -/
def splitWsGo : Str → Str → List Str
  | [], acc => [acc.reverse]
  | c :: rest, acc =>
    if c.isWhitespace then
      acc.reverse :: splitWsGo (rest.dropWhile Char.isWhitespace) []
    else splitWsGo rest (c :: acc)
termination_by s _ => s.length
decreasing_by
  · simp only [List.length_cons]
    exact Nat.lt_succ_of_le (List.dropWhile_sublist _).length_le
  · simp

/-- `normalized.split(/\s+/)`. -/
def jsSplitWs (s : Str) : List Str := splitWsGo s []

/-- `isFollowUpQuery`: a phrase match, or at most two whitespace-separated
tokens and under 20 characters. -/
def isFollowUpQuery (query : Str) : Bool :=
  let normalized := normalizeQuery query
  followUpPatterns.any (fun p => patternHit normalized p) ||
    ((jsSplitWs normalized).length ≤ 2 && normalized.length < 20)

/- ## Spider: page vector point (src/spider/db/qdrant_handler.go) -/

/-- A qdrant payload value (`qdrant.Value`). -/
inductive QValue where
  | str (s : Str)
  | int (n : Int)
  | list (l : List QValue)

/-- The fields of `models.PageData` consumed by `UpsertPageToQdrant`
(src/unnamed/part_002 declares the full struct; unused fields such as
`Headings`, `WordCount` and `CrawlDate` are carried to show they are not
written to the payload). -/
structure PageData where
  url : Str
  title : Str
  metaDescription : Str
  mainContent : Str
  favicon : Str
  headings : List (Str × List Str)
  imageAlt : List Str
  outboundLinks : List Link
  wordCount : Int
  statusCode : Int

/-- The vector point `UpsertPageToQdrant` sends to the
`page_content_embeddings` collection. -/
structure PagePoint where
  id : Str
  vector : List ℚ
  payload : List (String × QValue)

/-- `UpsertPageToQdrant` point construction: deterministic UUID from the
URL (`utils.GenerateUUIDFromURL`, oracle `genUUID`), vector =
`utils.Embed(MainContent)` (oracle `embed`), and the payload map written
by the source, key for key. -/
def buildPagePoint (embed : Str → List ℚ) (genUUID : Str → Str)
    (pageData : PageData) : PagePoint :=
  { id := genUUID pageData.url
    vector := embed pageData.mainContent
    payload :=
      [("url", .str pageData.url),
       ("title", .str pageData.title),
       ("content", .str pageData.mainContent),
       ("description", .str pageData.metaDescription),
       ("status", .int pageData.statusCode),
       ("out_links", .int pageData.outboundLinks.length),
       ("in_links", .int 0),
       ("favicon", .str pageData.favicon),
       ("image_alts", .list (pageData.imageAlt.map QValue.str))] }

/- ## Spider: PDF chunking and embedding
(src/spider/functions/pdf_processor.go) -/

/-- `strings.Fields`: split on whitespace runs, no empty fields. -/
def fieldsGo : Str → List Str
  | [] => []
  | c :: rest =>
    if c.isWhitespace then fieldsGo rest
    else (c :: rest.takeWhile (fun d => !d.isWhitespace)) ::
      fieldsGo (rest.dropWhile (fun d => !d.isWhitespace))
termination_by s => s.length
decreasing_by
  · simp
  · simp only [List.length_cons]
    exact Nat.lt_succ_of_le (List.dropWhile_sublist _).length_le

/-- `strings.Join(words, " ")`. -/
def joinSpace : List Str → Str
  | [] => []
  | [w] => w
  | w :: ws => w ++ ' ' :: joinSpace ws

/-- The slicing loop of `ChunkText` on the word list: take `chunkSize`
words, and while more words remain advance the window start by
`chunkSize - overlap`. The code is only ever called with
`overlap < chunkSize` (500, 50); for `chunkSize ≤ overlap` the Go loop
would not terminate, and the model returns `[]` on that unreachable
branch. -/
def chunkLoop (chunkSize overlap : Nat) (r : List Str) : List (List Str) :=
  if r.length ≤ chunkSize then [r]
  else if _h : overlap < chunkSize then
    r.take chunkSize :: chunkLoop chunkSize overlap (r.drop (chunkSize - overlap))
  else []
termination_by r.length
decreasing_by
  simp only [List.length_drop]
  omega

/-- `ChunkText(text, chunkSize, overlap)`: empty text or no words gives no
chunks; otherwise the joined word windows. -/
def goChunkText (text : Str) (chunkSize overlap : Nat) : List Str :=
  if text.length = 0 then []
  else
    let words := fieldsGo text
    if words = [] then []
    else (chunkLoop chunkSize overlap words).map joinSpace

/-- Pair each element with its index from `start`
(the `for i, chunk := range chunks` index). -/
def withIdx (start : Nat) : List Str → List (Nat × Str)
  | [] => []
  | c :: rest => (start, c) :: withIdx (start + 1) rest

/-- The `(chunk_index, text_chunk)` records stored by
`processPDFEmbeddings` when every embed call and every upsert succeeds:
chunk `i` is stored unless `len(strings.TrimSpace(chunk)) < 50`. -/
def storedChunkRecords (text : Str) : List (Nat × Str) :=
  (withIdx 0 (goChunkText text 500 50)).filter
    (fun p => 50 ≤ (trimWs p.2).length)

/- ## Server: RAG stream events (rag.service.js, src/unnamed/part_004) -/

/-- The events `searchStream` can emit through `onEvent`. -/
inductive RagEvent where
  | statusE (msg : String)
  | sessionE (id : String)
  | sourcesE (count : Nat)
  | tokenE (tok : String)
  | doneE
  | errorE (msg : String)
deriving DecidableEq

/-- `MIN_RELEVANCE_SCORE` in `searchStream`. -/
def MIN_RELEVANCE_SCORE : ℚ := 1 / 2

/-- `config.search.rerankTopK` default (environment.js). -/
def rerankTopK : Nat := 5

/-- `finalDocs` computation of `searchStream`: filter the merged hits by
score, sort descending, take the top `rerankTopK`; if that is empty fall
back to the top 3 of the unfiltered union. -/
def finalDocsOf (allDocs : List RagDoc) : List RagDoc :=
  let topDocs :=
    (sortByScoreDesc (allDocs.filter
      (fun d => MIN_RELEVANCE_SCORE ≤ d.score))).take rerankTopK
  if 0 < topDocs.length then topDocs else (sortByScoreDesc allDocs).take 3

/-- Outcomes of the awaited external calls inside `searchStream`; a JS
exception in any of them is caught by the surrounding `try` and turned
into an `error` event.  `tokens` are the chunks the LLM stream delivered
before it finished or failed. -/
structure StreamEnv where
  newSessionId : String
  embedRes : Except String Unit
  searchRes : Except String (List RagDoc)
  tokens : List String
  llamaRes : Except String Unit

/-- `let finalSessionId = sessionId; if (!finalSessionId) finalSessionId =
historyService.createSession()` (the empty string is falsy in JS). -/
def finalSessionIdOf (sessionId : Option String) (env : StreamEnv) : String :=
  match sessionId with
  | none => env.newSessionId
  | some s => if s == "" then env.newSessionId else s

/-- `searchStream` as the sequence of events it emits, mirroring the
source order: `status "Loading..."`, `session`, `status "Searching..."`,
embed, `status "Searching..."`, hybrid search, `status "Filtering..."`,
`sources`, `status "Processing..."`, the token stream, then `done` — with
an `error` event replacing the remainder when a step throws. -/
def searchStream (sessionId : Option String) (env : StreamEnv) :
    List RagEvent :=
  let fid := finalSessionIdOf sessionId env
  [.statusE "Loading...", .sessionE fid, .statusE "Searching..."] ++
    match env.embedRes with
    | .error e => [.errorE e]
    | .ok _ =>
      [.statusE "Searching..."] ++
        match env.searchRes with
        | .error e => [.errorE e]
        | .ok allDocs =>
          let finalDocs := finalDocsOf allDocs
          [.statusE "Filtering...", .sourcesE finalDocs.length,
           .statusE "Processing..."] ++
            env.tokens.map RagEvent.tokenE ++
            match env.llamaRes with
            | .error e => [.errorE e]
            | .ok _ => [.doneE]

/-- Drop a leading run of `status` events. -/
def dropStatusEvents : List RagEvent → List RagEvent
  | .statusE _ :: rest => dropStatusEvents rest
  | l => l

/-- Drop a leading run of `token` events. -/
def dropTokenEvents : List RagEvent → List RagEvent
  | .tokenE _ :: rest => dropTokenEvents rest
  | l => l

/-- The event order asserted by the specification: one `session`, then one
or more `status`, then one `sources`, then zero or more `token`, then
exactly one `done`. -/
def specClaimedShape (trace : List RagEvent) : Bool :=
  match trace with
  | .sessionE _ :: .statusE _ :: rest =>
    match dropStatusEvents rest with
    | .sourcesE _ :: r2 =>
      match dropTokenEvents r2 with
      | [.doneE] => true
      | _ => false
    | _ => false
  | _ => false

/-- Is the event an `error`? -/
def isErrorEvent : RagEvent → Bool
  | .errorE _ => true
  | _ => false

/-- Is the event a terminal (`done` or `error`) event? -/
def isTerminalEvent : RagEvent → Bool
  | .doneE => true
  | .errorE _ => true
  | _ => false

/- ## Server: chat history (src/server/src/services/history.service.js) -/

/-- The history database: session rows `(id, title)` and message rows
`(session_id, role, content, sources)` in insertion order (timestamps are
not modelled; no claim depends on them). -/
structure HistoryDB where
  sessions : List (String × Str)
  messages : List (String × String × Str × Option String)

/-- `getSession`: `SELECT * FROM sessions WHERE id = ?`. -/
def getSession (db : HistoryDB) (id : String) : Option (String × Str) :=
  db.sessions.find? (fun p => p.1 == id)

/-- `createSession(title)`: insert a row under a freshly generated
`uuidv4()` (oracle `freshId`) — the given title, not the caller's session
id, and return the fresh id. -/
def createSession (db : HistoryDB) (freshId : String) (title : Str) :
    HistoryDB :=
  { db with sessions := db.sessions ++ [(freshId, title)] }

/-- `updateSessionTitle`: `UPDATE sessions SET title = ? WHERE id = ?`. -/
def updateSessionTitle (db : HistoryDB) (sessionId : String) (title : Str) :
    HistoryDB :=
  { db with sessions :=
      db.sessions.map (fun p => if p.1 == sessionId then (p.1, title) else p) }

/-- `content.split('\n')[0].substring(0, 50).trim()` with the
`|| 'New Chat'` fallback. -/
def deriveTitle (content : Str) : Str :=
  let t := trimWs ((content.takeWhile (fun c => c ≠ '\n')).take 50)
  if t == [] then strL "New Chat" else t

/-- `addMessage(sessionId, role, content, sources)`: when no session with
`sessionId` exists, call `createSession('Auto-created Session')` — which
inserts under a fresh uuid, not under `sessionId`; then maybe retitle the
session found under `sessionId`; then insert the message row referencing
`sessionId`.  (The trailing `UPDATE sessions SET updated_at ...` touches
no modelled field.) -/
def addMessage (db : HistoryDB) (freshId : String) (sessionId role : String)
    (content : Str) (sources : Option String) : HistoryDB :=
  let db1 :=
    match getSession db sessionId with
    | none => createSession db freshId (strL "Auto-created Session")
    | some _ => db
  let db2 :=
    if role == "user" then
      match getSession db1 sessionId with
      | some cur =>
        if cur.2 == strL "New Chat" || cur.2 == strL "Auto-created Session"
        then updateSessionTitle db1 sessionId (deriveTitle content)
        else db1
      | none => db1
    else db1
  { db2 with messages := db2.messages ++ [(sessionId, role, content, sources)] }

/- ## Theorems -/

/-- C1: for every link whose URL is neither queued nor visited and whose
parsed host is in `allowed_hosts`, `safeEnqueue` adds the URL to
`queued_urls` and grows the FIFO by exactly one; a link whose URL is
already queued or visited, or whose origin is not allowed (including an
unparseable URL), leaves the whole crawler state unchanged. -/
theorem safeEnqueue_correct (parseHost : Str → Option Str)
    (st : CrawlerState) (link : Link) :
    (∀ h : Str, st.queuedUrls.contains link.url = false →
      st.visitedUrls.contains link.url = false →
      parseHost link.url = some h → st.allowedHosts h = true →
      (safeEnqueue parseHost st link).queuedUrls.contains link.url = true ∧
      (safeEnqueue parseHost st link).linksQueue.length =
        st.linksQueue.length + 1) ∧
    (st.queuedUrls.contains link.url = true ∨
      st.visitedUrls.contains link.url = true ∨
      isAllowedOrigin parseHost st link.url = false →
      safeEnqueue parseHost st link = st) := by
  constructor
  · intro h hq hv hp ha
    have hall : isAllowedOrigin parseHost st link.url = true := by
      simp [isAllowedOrigin, hp, ha]
    simp only [safeEnqueue, hq, hv, hall, Bool.false_eq_true, if_false,
      Bool.not_true, enqueueLink]
    constructor
    · simp [List.contains_cons]
    · simp
  · intro hdrop
    rcases hdrop with hq | hv | hn
    · simp only [safeEnqueue, hq]
      rfl
    · cases hq : st.queuedUrls.contains link.url
      · simp only [safeEnqueue, hq, hv]
        rfl
      · simp only [safeEnqueue, hq]
        rfl
    · cases hq : st.queuedUrls.contains link.url
      · cases hv : st.visitedUrls.contains link.url
        · simp only [safeEnqueue, hq, hv, hn]
          rfl
        · simp only [safeEnqueue, hq, hv]
          rfl
      · simp only [safeEnqueue, hq]
        rfl

/-- Witness for C1: on a crawler with an empty queue and dedup sets and
`example.com` allowed, enqueueing a link to `example.com` succeeds with
both conclusions, and a link whose host is not allowed leaves the state
unchanged. -/
theorem safeEnqueue_correct_witness :
    ((safeEnqueue (fun _ => some (strL "example.com"))
        ⟨[], [], [], fun h => h == strL "example.com"⟩
        ⟨strL "home", strL "https://example.com/"⟩).queuedUrls.contains
          (strL "https://example.com/") = true ∧
      (safeEnqueue (fun _ => some (strL "example.com"))
        ⟨[], [], [], fun h => h == strL "example.com"⟩
        ⟨strL "home", strL "https://example.com/"⟩).linksQueue.length =
        ([] : List Link).length + 1) ∧
    safeEnqueue (fun _ => some (strL "evil.com"))
        ⟨[], [], [], fun h => h == strL "example.com"⟩
        ⟨strL "x", strL "https://evil.com/"⟩ =
      ⟨[], [], [], fun h => h == strL "example.com"⟩ := by
  constructor
  · exact (safeEnqueue_correct (fun _ => some (strL "example.com"))
      ⟨[], [], [], fun h => h == strL "example.com"⟩
      ⟨strL "home", strL "https://example.com/"⟩).1
      (strL "example.com") (by decide) (by decide) rfl (by decide)
  · exact (safeEnqueue_correct (fun _ => some (strL "evil.com"))
      ⟨[], [], [], fun h => h == strL "example.com"⟩
      ⟨strL "x", strL "https://evil.com/"⟩).2
      (Or.inr (Or.inr (by decide)))

set_option maxRecDepth 4000 in
/-- C8 counterexample: the claim lists `.pdf` among the rejected binary
extensions, but `shouldSkipURL`'s extension list has no `.pdf` entry: a
URL ending in `.pdf` is not skipped, and `CrawlPage` goes on to the robots
check, the HTTP fetch and persistence. -/
theorem crawlPage_pdf_not_rejected :
    shouldSkipURL (strL "https://example.com/paper.pdf") = false ∧
    (crawlPage
        ⟨fun _ => some (strL "example.com"), true,
          some ⟨200, strL "text/html"⟩, some (List.replicate 600 'a'), true⟩
        ⟨[], [], [], fun _ => true⟩
        (strL "https://example.com/paper.pdf")).1 =
      [.robotsCheck, .httpFetch, .extractData, .persistPage] := by
  constructor
  · decide
  · decide

/-- C8 (amended): for every URL whose lowercased form ends with one of the
extensions actually listed in `shouldSkipURL` — `.jpg`, `.css`, `.js`,
`.zip`, `.mp3`, `.json`, `.php` and the rest, but not `.pdf` — or contains
`download=`, `attachment=` or `export=`, `CrawlPage` stops with
`skippedBinary` before any robots check or HTTP fetch, performing no side
effect at all (so no page is persisted). -/
theorem crawlPage_rejects_binary (env : CrawlEnv) (st : CrawlerState)
    (url : Str)
    (hv : st.visitedUrls.contains url = false)
    (hskip :
      binaryExtensions.any (fun ext => endsWithL (lowerStr url) ext) = true ∨
      containsL (lowerStr url) (strL "download=") = true ∨
      containsL (lowerStr url) (strL "attachment=") = true ∨
      containsL (lowerStr url) (strL "export=") = true) :
    crawlPage env st url = ([], .skippedBinary) := by
  have hs : shouldSkipURL url = true := by
    unfold shouldSkipURL
    rcases hskip with h | h | h | h <;> simp [h]
  simp only [crawlPage, hv, hs]
  rfl

/-- Witness for C8 (amended): a stylesheet URL is rejected with no side
effects. -/
theorem crawlPage_rejects_binary_witness :
    crawlPage
        ⟨fun _ => some (strL "example.com"), true,
          some ⟨200, strL "text/html"⟩, some (List.replicate 600 'a'), true⟩
        ⟨[], [], [], fun _ => true⟩
        (strL "https://example.com/style.css") = ([], .skippedBinary) :=
  crawlPage_rejects_binary _ _ _ (by decide) (Or.inl (by decide))

/-- C10: an absent (empty) Content-Type is treated as HTML
(`isHTMLContent "" = true`); `isHTMLContent` is `false` exactly for a
non-empty Content-Type whose lowercased form contains none of
`text/html`, `application/xhtml+xml`, `text/plain`; and on a 200 response
with empty Content-Type, `CrawlPage` proceeds to extraction rather than
skipping. -/
theorem crawlPage_empty_content_type_is_html :
    isHTMLContent [] = true ∧
    (∀ contentType : Str, isHTMLContent contentType = false ↔
      (contentType ≠ [] ∧
        containsL (lowerStr contentType) (strL "text/html") = false ∧
        containsL (lowerStr contentType) (strL "application/xhtml+xml") = false ∧
        containsL (lowerStr contentType) (strL "text/plain") = false)) ∧
    (∀ (env : CrawlEnv) (st : CrawlerState) (url : Str) (r : FetchResult),
      st.visitedUrls.contains url = false →
      shouldSkipURL url = false →
      (∃ h, env.parseHost url = some h) →
      env.robotsAllowed = true →
      env.fetchResult = some r →
      r.status = 200 →
      r.contentType = [] →
      CrawlStep.extractData ∈ (crawlPage env st url).1 ∧
      (crawlPage env st url).2 ≠ .skippedNonHTML) := by
  refine ⟨rfl, ?_, ?_⟩
  · intro contentType
    unfold isHTMLContent htmlTypes
    cases contentType with
    | nil => simp
    | cons c rest => simp [Bool.or_eq_true, and_assoc]
  · rintro env st url r hv hsk ⟨h, hp⟩ hrob hf hst hct
    have hhtml : isHTMLContent r.contentType = true := by
      rw [hct]; rfl
    simp only [crawlPage, hv, hsk, hp, hrob, hf, hst, hhtml,
      Bool.not_true, Bool.false_eq_true, if_false, ne_eq,
      not_true_eq_false, reduceIte]
    cases env.extractedContent with
    | none => exact ⟨by simp, by simp⟩
    | some content =>
      by_cases hlen : content.length < minContentLength
      · simp [hlen]
      · by_cases hstore : env.storeOk <;> simp [hlen, hstore]

/-- Witness for C10: concrete crawl of an allowed page returning 200 with
an empty Content-Type reaches extraction. -/
theorem crawlPage_empty_content_type_is_html_witness :
    CrawlStep.extractData ∈
      (crawlPage
        ⟨fun _ => some (strL "example.com"), true, some ⟨200, []⟩,
          some (List.replicate 600 'a'), true⟩
        ⟨[], [], [], fun _ => true⟩
        (strL "https://example.com/about")).1 :=
  (crawlPage_empty_content_type_is_html.2.2
    ⟨fun _ => some (strL "example.com"), true, some ⟨200, []⟩,
      some (List.replicate 600 'a'), true⟩
    ⟨[], [], [], fun _ => true⟩
    (strL "https://example.com/about") ⟨200, []⟩
    (by decide) (by decide) ⟨strL "example.com", rfl⟩ rfl rfl rfl rfl).1

/-- C5: the page vector point has the deterministic UUID of the URL as ID
and the embedding of `main_content` as vector, but its payload keys are
`url, title, content, description, status, out_links, in_links, favicon,
image_alts` — the claimed keys `main_content, meta_description,
status_code, outbound_links_count, headings, word_count, crawl_date` are
never written (the server-side reader `formatPageResults` looks exactly
those up, so the code contradicts its own consumer). -/
theorem buildPagePoint_shape (embed : Str → List ℚ) (genUUID : Str → Str)
    (pageData : PageData) :
    (buildPagePoint embed genUUID pageData).id = genUUID pageData.url ∧
    (buildPagePoint embed genUUID pageData).vector =
      embed pageData.mainContent ∧
    (buildPagePoint embed genUUID pageData).payload.map Prod.fst =
      ["url", "title", "content", "description", "status", "out_links",
       "in_links", "favicon", "image_alts"] ∧
    "main_content" ∉
      (buildPagePoint embed genUUID pageData).payload.map Prod.fst ∧
    "meta_description" ∉
      (buildPagePoint embed genUUID pageData).payload.map Prod.fst ∧
    "status_code" ∉
      (buildPagePoint embed genUUID pageData).payload.map Prod.fst ∧
    "outbound_links_count" ∉
      (buildPagePoint embed genUUID pageData).payload.map Prod.fst ∧
    "headings" ∉
      (buildPagePoint embed genUUID pageData).payload.map Prod.fst ∧
    "word_count" ∉
      (buildPagePoint embed genUUID pageData).payload.map Prod.fst ∧
    "crawl_date" ∉
      (buildPagePoint embed genUUID pageData).payload.map Prod.fst := by
  have hk : (buildPagePoint embed genUUID pageData).payload.map Prod.fst =
      ["url", "title", "content", "description", "status", "out_links",
       "in_links", "favicon", "image_alts"] := rfl
  refine ⟨rfl, rfl, hk, ?_, ?_, ?_, ?_, ?_, ?_, ?_⟩ <;> rw [hk] <;> decide

/-- `startsWithL s p` holds exactly when `s` extends `p`. -/
theorem startsWithL_iff (p s : Str) :
    startsWithL s p = true ↔ ∃ t, s = p ++ t := by
  induction p generalizing s with
  | nil => cases s <;> simp [startsWithL]
  | cons d p ih =>
    cases s with
    | nil => simp [startsWithL]
    | cons c s =>
      simp only [startsWithL, Bool.and_eq_true, beq_iff_eq, ih,
        List.cons_append, List.cons.injEq]
      constructor
      · rintro ⟨rfl, t, rfl⟩
        exact ⟨t, rfl, rfl⟩
      · rintro ⟨t, rfl, rfl⟩
        exact ⟨rfl, t, rfl⟩

/-- C4 counterexample: the claim says the query
`"continue reading later"` is not classified as a follow-up, but
`isFollowUpQuery` returns `true` for it: the code tests whether a listed
phrase (here `continue`) followed by a space starts the query, not
whether the query equals-or-prefixes a phrase. -/
theorem isFollowUpQuery_continue_reading_later :
    isFollowUpQuery (strL "continue reading later") = true := by decide

/-- C4 (amended): after lowercasing and trimming, a query is classified as
a follow-up exactly when it equals a listed phrase, or starts with a
listed phrase followed by a space or a question mark, or has at most two
whitespace-separated tokens and fewer than 20 characters.  In particular
`"continue"` matches, `"continue reading later"` also matches (it starts
with `"continue "`), and a query of 20 or more characters matching no
phrase is never classified by length alone. -/
theorem isFollowUpQuery_characterization :
    (∀ query : Str, isFollowUpQuery query = true ↔
      ((∃ p ∈ followUpPatterns, normalizeQuery query = p ∨
          (∃ t, normalizeQuery query = p ++ ' ' :: t) ∨
          (∃ t, normalizeQuery query = p ++ '?' :: t)) ∨
        ((jsSplitWs (normalizeQuery query)).length ≤ 2 ∧
          (normalizeQuery query).length < 20))) ∧
    isFollowUpQuery (strL "continue") = true ∧
    isFollowUpQuery (strL "continue reading later") = true ∧
    (∀ query : Str, 20 ≤ (normalizeQuery query).length →
      (∀ p ∈ followUpPatterns, patternHit (normalizeQuery query) p = false) →
      isFollowUpQuery query = false) := by
  refine ⟨?_, by decide, by decide, ?_⟩
  · intro query
    have hsp : ∀ p : Str, p ++ strL " " = p ++ [' '] := fun _ => rfl
    have hq : ∀ p : Str, p ++ strL "?" = p ++ ['?'] := fun _ => rfl
    simp only [isFollowUpQuery, Bool.or_eq_true, List.any_eq_true,
      patternHit, Bool.and_eq_true, beq_iff_eq, startsWithL_iff, hsp, hq,
      List.append_assoc, List.singleton_append, decide_eq_true_eq,
      Nat.lt_iff_add_one_le, or_assoc]
  · intro query hlen hpat
    have h1 : followUpPatterns.any
        (fun p => patternHit (normalizeQuery query) p) = false := by
      simp only [List.any_eq_false]
      intro p hp
      simp [hpat p hp]
    simp only [isFollowUpQuery, h1, Bool.false_or, Bool.and_eq_false_iff]
    right
    simp only [decide_eq_false_iff_not, not_lt]
    exact hlen

/-- Witness for C4 (amended): a long query matching no phrase is not a
follow-up. -/
theorem isFollowUpQuery_characterization_witness :
    isFollowUpQuery (strL "what is the capital of france right now") =
      false :=
  isFollowUpQuery_characterization.2.2.2
    (strL "what is the capital of france right now")
    (by decide) (by decide)

/-- Per-document truncation yields at most `MAX_PER_DOC` characters of
content plus the three-character ellipsis. -/
theorem truncContent_length_le (c : Str) :
    (truncContent c).length ≤ MAX_PER_DOC + 3 := by
  unfold truncContent
  by_cases h : MAX_PER_DOC < c.length
  · have h3 : (strL "...").length = 3 := rfl
    simp only [h, if_true, List.length_append, List.length_take, h3]
    omega
  · simp only [h, if_false]
    omega

/-- The selection loop never lets the running total pass
`MAX_CONTEXT_LENGTH`. -/
theorem selectDocs_total_le (l : List RagDoc) :
    ∀ total : Nat, total ≤ MAX_CONTEXT_LENGTH →
      total + (totalLen (selectDocs l total).1 +
        totalLen (selectDocs l total).2) ≤ MAX_CONTEXT_LENGTH := by
  induction l with
  | nil =>
    intro total h
    simpa [selectDocs, totalLen] using h
  | cons d rest ih =>
    intro total h
    simp only [selectDocs]
    by_cases hb : MAX_CONTEXT_LENGTH < total + (truncContent d.content).length
    · simpa [hb, totalLen] using h
    · have hle : total + (truncContent d.content).length ≤
          MAX_CONTEXT_LENGTH := by omega
      have hrec := ih (total + (truncContent d.content).length) hle
      cases hp : d.dtype == "page" <;>
        · simp [hb, hp, totalLen] at hrec ⊢
          omega

/-- Every document the selection loop keeps carries truncated content. -/
theorem selectDocs_content_le (l : List RagDoc) :
    ∀ (total : Nat) (d : RagDoc),
      d ∈ (selectDocs l total).1 ∨ d ∈ (selectDocs l total).2 →
      d.content.length ≤ MAX_PER_DOC + 3 := by
  induction l with
  | nil =>
    intro total d hd
    simp [selectDocs] at hd
  | cons e rest ih =>
    intro total d hd
    simp only [selectDocs] at hd
    by_cases hb : MAX_CONTEXT_LENGTH < total + (truncContent e.content).length
    · simp [hb] at hd
    · cases hp : e.dtype == "page"
      · simp only [hb, if_false, hp, Bool.false_eq_true, List.mem_cons] at hd
        rcases hd with hmem | (heq | hmem)
        · exact ih _ d (Or.inl hmem)
        · rw [heq]
          exact truncContent_length_le _
        · exact ih _ d (Or.inr hmem)
      · simp only [hb, if_false, hp, if_true, List.mem_cons] at hd
        rcases hd with (heq | hmem) | hmem
        · rw [heq]
          exact truncContent_length_le _
        · exact ih _ d (Or.inl hmem)
        · exact ih _ d (Or.inr hmem)

/-- C3 (amended): the assembled context keeps the total selected content
length within `MAX_CONTEXT_LENGTH` (4000), and each selected document
contributes at most `MAX_PER_DOC + 3` characters (1000 characters of
content plus the appended three-character `...` ellipsis — not 1000, as
the claim stated). -/
theorem prepareOptimizedContext_bounds (docs : List RagDoc) :
    totalLen (prepareOptimizedContext docs).1 +
      totalLen (prepareOptimizedContext docs).2 ≤ MAX_CONTEXT_LENGTH ∧
    ∀ d : RagDoc,
      d ∈ (prepareOptimizedContext docs).1 ∨
        d ∈ (prepareOptimizedContext docs).2 →
      d.content.length ≤ MAX_PER_DOC + 3 := by
  constructor
  · have := selectDocs_total_le (sortByScoreDesc docs) 0 (by simp [MAX_CONTEXT_LENGTH])
    simpa [prepareOptimizedContext] using this
  · intro d hd
    exact selectDocs_content_le (sortByScoreDesc docs) 0 d hd

/-- Witness for C3 (amended): a single short page document is selected and
satisfies both bounds. -/
theorem prepareOptimizedContext_bounds_witness :
    totalLen (prepareOptimizedContext [⟨"page", strL "hi", 1⟩]).1 +
      totalLen (prepareOptimizedContext [⟨"page", strL "hi", 1⟩]).2 ≤
        MAX_CONTEXT_LENGTH ∧
    (⟨"page", strL "hi", 1⟩ : RagDoc).content.length ≤ MAX_PER_DOC + 3 :=
  ⟨(prepareOptimizedContext_bounds [⟨"page", strL "hi", 1⟩]).1,
    (prepareOptimizedContext_bounds [⟨"page", strL "hi", 1⟩]).2
      ⟨"page", strL "hi", 1⟩ (Or.inl (by decide))⟩

set_option maxRecDepth 8000 in
/-- C3 counterexample: a document whose content has 1004 characters is
selected with 1003 characters (1000 kept plus the `...` ellipsis), so the
claim "no single document contributes more than 1000 characters" fails. -/
theorem prepareOptimizedContext_doc_over_1000 :
    ∃ d ∈ (prepareOptimizedContext
        [⟨"page", List.replicate 1004 'a', 1⟩]).1,
      1000 < d.content.length := by decide

/-- `maxScoreQ` is `none` only for the empty group. -/
theorem maxScoreQ_eq_none (g : List PDFHit) :
    maxScoreQ g = none ↔ g = [] := by
  cases g with
  | nil => simp [maxScoreQ]
  | cons h t =>
    simp only [maxScoreQ, List.cons_ne_nil, iff_false]
    cases maxScoreQ t <;> simp

/-- A group is kept exactly when some chunk in it reaches the
threshold. -/
theorem keepGroup_iff (g : List PDFHit) :
    keepGroup g = true ↔ ∃ r ∈ g, PDF_MIN_SIMILARITY ≤ r.score := by
  induction g with
  | nil => simp [keepGroup, maxScoreQ]
  | cons h t ih =>
    cases hm : maxScoreQ t with
    | none =>
      have ht : t = [] := (maxScoreQ_eq_none t).mp hm
      subst ht
      simp [keepGroup, maxScoreQ]
    | some m =>
      have hcons : keepGroup (h :: t) =
          decide (PDF_MIN_SIMILARITY ≤ max h.score m) := by
        simp [keepGroup, maxScoreQ, hm]
      have hih : (∃ r ∈ t, PDF_MIN_SIMILARITY ≤ r.score) ↔
          PDF_MIN_SIMILARITY ≤ m := by
        rw [← ih]
        simp [keepGroup, hm]
      rw [hcons]
      simp only [decide_eq_true_eq, le_max_iff, List.mem_cons]
      constructor
      · rintro (hh | hm2)
        · exact ⟨h, Or.inl rfl, hh⟩
        · obtain ⟨r, hr, hs⟩ := hih.mpr hm2
          exact ⟨r, Or.inr hr, hs⟩
      · rintro ⟨r, hr | hr, hs⟩
        · rw [hr] at hs
          exact Or.inl hs
        · exact Or.inr (hih.mp ⟨r, hr, hs⟩)

/-- Counting inside one group. -/
theorem hitCount_groupOf (pdfResults : List PDFHit) (k : String)
    (x : PDFHit) :
    hitCount x (groupOf pdfResults k) =
      if x.pdfUrl = k then hitCount x pdfResults else 0 := by
  induction pdfResults with
  | nil => simp [groupOf, hitCount]
  | cons h t ih =>
    simp only [groupOf, List.filter_cons] at ih ⊢
    by_cases hx : x.pdfUrl = k
    · simp only [hx, if_true] at ih ⊢
      by_cases hh : h.pdfUrl == k
      · simp [hh, hitCount, ih]
      · have hne : h ≠ x := by
          intro he
          rw [he] at hh
          exact hh (by simp [hx])
        simp [hh, hitCount, ih, hne]
    · simp only [hx, if_false] at ih ⊢
      by_cases hh : h.pdfUrl == k
      · have hne : h ≠ x := by
          intro he
          apply hx
          rw [← he]
          simpa using hh
        simp [hh, hitCount, ih, hne]
      · simp [hh, hitCount, ih]

/-- `hitCount` distributes over append. -/
theorem hitCount_append (x : PDFHit) (l1 l2 : List PDFHit) :
    hitCount x (l1 ++ l2) = hitCount x l1 + hitCount x l2 := by
  induction l1 with
  | nil => simp [hitCount]
  | cons h t ih => simp [hitCount, ih, Nat.add_assoc]

/-- A key list avoiding `x.pdfUrl` contributes no copy of `x`. -/
theorem hitCount_keys_zero (pdfResults : List PDFHit) (x : PDFHit) :
    ∀ ks : List String, x.pdfUrl ∉ ks →
      hitCount x (ks.flatMap (fun k =>
        if keepGroup (groupOf pdfResults k) then groupOf pdfResults k
        else [])) = 0 := by
  intro ks
  induction ks with
  | nil => intro _; simp [hitCount]
  | cons k ks ih =>
    intro hnot
    have hk : x.pdfUrl ≠ k := fun he => hnot (by rw [he]; exact List.mem_cons_self _ _)
    have hks : x.pdfUrl ∉ ks := fun hm => hnot (List.mem_cons_of_mem _ hm)
    simp only [List.flatMap_cons, hitCount_append, ih hks, Nat.add_zero]
    by_cases hkeep : keepGroup (groupOf pdfResults k)
    · simp [hkeep, hitCount_groupOf, hk]
    · simp [hkeep, hitCount]

/-- Counting over the grouped emission when `x.pdfUrl` is among the
(distinct) keys. -/
theorem hitCount_keys_mem (pdfResults : List PDFHit) (x : PDFHit) :
    ∀ ks : List String, ks.Nodup → x.pdfUrl ∈ ks →
      hitCount x (ks.flatMap (fun k =>
        if keepGroup (groupOf pdfResults k) then groupOf pdfResults k
        else [])) =
      if keepGroup (groupOf pdfResults x.pdfUrl) then
        hitCount x pdfResults else 0 := by
  intro ks
  induction ks with
  | nil => intro _ h; simp at h
  | cons k ks ih =>
    intro hnd hmem
    simp only [List.flatMap_cons, hitCount_append]
    rcases List.mem_cons.mp hmem with heq | htail
    · have hnot : x.pdfUrl ∉ ks := by
        rw [heq]
        exact (List.nodup_cons.mp hnd).1
      rw [hitCount_keys_zero pdfResults x ks hnot, Nat.add_zero, ← heq]
      by_cases hkeep : keepGroup (groupOf pdfResults x.pdfUrl)
      · simp [hkeep, hitCount_groupOf]
      · simp [hkeep, hitCount]
    · have hk : x.pdfUrl ≠ k := by
        intro he
        rw [← he] at hnd
        exact (List.nodup_cons.mp hnd).1 htail
      have hfirst : hitCount x (if keepGroup (groupOf pdfResults k) then
          groupOf pdfResults k else []) = 0 := by
        by_cases hkeep : keepGroup (groupOf pdfResults k)
        · simp [hkeep, hitCount_groupOf, hk]
        · simp [hkeep, hitCount]
      rw [hfirst, Nat.zero_add]
      exact ih (List.nodup_cons.mp hnd).2 htail

/-- Unfolding `groupKeys` when the head's URL was already seen. -/
theorem groupKeys_cons_seen {seen : List String} {h : PDFHit}
    {t : List PDFHit} (hc : seen.contains h.pdfUrl = true) :
    groupKeys seen (h :: t) = groupKeys seen t := by
  have hstep : groupKeys seen (h :: t) =
      if seen.contains h.pdfUrl then groupKeys seen t
      else h.pdfUrl :: groupKeys (h.pdfUrl :: seen) t := rfl
  rw [hstep, hc]
  exact if_pos rfl

/-- Unfolding `groupKeys` when the head's URL is new. -/
theorem groupKeys_cons_new {seen : List String} {h : PDFHit}
    {t : List PDFHit} (hc : seen.contains h.pdfUrl = false) :
    groupKeys seen (h :: t) =
      h.pdfUrl :: groupKeys (h.pdfUrl :: seen) t := by
  have hstep : groupKeys seen (h :: t) =
      if seen.contains h.pdfUrl then groupKeys seen t
      else h.pdfUrl :: groupKeys (h.pdfUrl :: seen) t := rfl
  rw [hstep, hc]
  exact if_neg (by simp)

/-- The key list built by `filterPDFsBySimilarity` has no duplicates and
avoids the `seen` accumulator. -/
theorem groupKeys_nodup (l : List PDFHit) :
    ∀ seen : List String,
      (groupKeys seen l).Nodup ∧ ∀ k ∈ groupKeys seen l, k ∉ seen := by
  induction l with
  | nil => intro seen; simp [groupKeys]
  | cons h t ih =>
    intro seen
    cases hc : seen.contains h.pdfUrl
    case true =>
      rw [groupKeys_cons_seen hc]
      exact ih seen
    case false =>
      have ihh := ih (h.pdfUrl :: seen)
      rw [groupKeys_cons_new hc]
      constructor
      · refine List.nodup_cons.mpr ⟨?_, ihh.1⟩
        intro hmem
        have := ihh.2 _ hmem
        exact this (List.mem_cons_self _ _)
      · intro k hk
        rcases List.mem_cons.mp hk with heq | htail
        · rw [heq]
          intro hmem
          have hct : seen.contains h.pdfUrl = true := by simpa using hmem
          rw [hct] at hc
          simp at hc
        · intro hmem
          exact ihh.2 _ htail (List.mem_cons_of_mem _ hmem)

/-- Every hit's URL ends up in the key list (or was already seen). -/
theorem groupKeys_covers (l : List PDFHit) :
    ∀ (seen : List String) (r : PDFHit), r ∈ l →
      r.pdfUrl ∈ seen ∨ r.pdfUrl ∈ groupKeys seen l := by
  induction l with
  | nil => intro seen r h; simp at h
  | cons h t ih =>
    intro seen r hr
    cases hc : seen.contains h.pdfUrl
    case true =>
      rw [groupKeys_cons_seen hc]
      rcases List.mem_cons.mp hr with heq | htail
      · rw [heq]
        exact Or.inl (by simpa using hc)
      · exact ih seen r htail
    case false =>
      rw [groupKeys_cons_new hc]
      rcases List.mem_cons.mp hr with heq | htail
      · rw [heq]
        exact Or.inr (List.mem_cons_self _ _)
      · rcases ih (h.pdfUrl :: seen) r htail with hseen | hkeys
        · rcases List.mem_cons.mp hseen with heq | hs
          · exact Or.inr (by rw [heq]; exact List.mem_cons_self _ _)
          · exact Or.inl hs
        · exact Or.inr (List.mem_cons_of_mem _ hkeys)

/-- C2: the group-wise PDF filter keeps a hit (with its exact multiplicity
and unmodified) exactly when some chunk sharing its `pdf_url` scores at
least `PDF_MIN_SIMILARITY` (0.55): groups with a qualifying chunk survive
whole, other groups vanish whole, and nothing else is added, dropped or
changed. -/
theorem filterPDFs_groupwise (pdfResults : List PDFHit) (x : PDFHit) :
    hitCount x (filterPDFsBySimilarity pdfResults) =
      if ∃ r ∈ pdfResults, r.pdfUrl = x.pdfUrl ∧
          PDF_MIN_SIMILARITY ≤ r.score
      then hitCount x pdfResults else 0 := by
  have hbridge : keepGroup (groupOf pdfResults x.pdfUrl) = true ↔
      ∃ r ∈ pdfResults, r.pdfUrl = x.pdfUrl ∧
        PDF_MIN_SIMILARITY ≤ r.score := by
    rw [keepGroup_iff]
    constructor
    · rintro ⟨r, hr, hs⟩
      have := List.mem_filter.mp hr
      exact ⟨r, this.1, by simpa using this.2, hs⟩
    · rintro ⟨r, hr, hurl, hs⟩
      exact ⟨r, List.mem_filter.mpr ⟨hr, by simpa using hurl⟩, hs⟩
  unfold filterPDFsBySimilarity
  by_cases hmem : x.pdfUrl ∈ groupKeys [] pdfResults
  · rw [hitCount_keys_mem pdfResults x _ (groupKeys_nodup pdfResults []).1
      hmem]
    by_cases hkeep : keepGroup (groupOf pdfResults x.pdfUrl)
    · rw [if_pos hkeep, if_pos (hbridge.mp hkeep)]
    · rw [if_neg hkeep, if_neg (fun hx => hkeep (hbridge.mpr hx))]
  · have hno : ∀ r ∈ pdfResults, r.pdfUrl ≠ x.pdfUrl := by
      intro r hr he
      rcases groupKeys_covers pdfResults [] r hr with hs | hk
      · simp at hs
      · rw [he] at hk
        exact hmem hk
    rw [hitCount_keys_zero pdfResults x _ hmem]
    rw [if_neg]
    rintro ⟨r, hr, hurl, _⟩
    exact hno r hr hurl

/-- `strings.Fields` yields nonempty, whitespace-free words (fuel-indexed
induction on the input length). -/
theorem fieldsGo_sound : ∀ (n : Nat) (s : Str), s.length ≤ n →
    ∀ w ∈ fieldsGo s, w ≠ [] ∧ ∀ ch ∈ w, ch.isWhitespace = false := by
  intro n
  induction n with
  | zero =>
    intro s hs w hw
    have hnil : s = [] := List.eq_nil_of_length_eq_zero (Nat.le_zero.mp hs)
    subst hnil
    simp [fieldsGo] at hw
  | succ n ih =>
    intro s hs w hw
    cases s with
    | nil => simp [fieldsGo] at hw
    | cons c rest =>
      by_cases hc : c.isWhitespace
      · rw [show fieldsGo (c :: rest) = fieldsGo rest from by
          simp [fieldsGo, hc]] at hw
        exact ih rest (by simp at hs; omega) w hw
      · rw [show fieldsGo (c :: rest) =
            (c :: rest.takeWhile (fun d => !d.isWhitespace)) ::
              fieldsGo (rest.dropWhile (fun d => !d.isWhitespace)) from by
          simp [fieldsGo, hc]] at hw
        rcases List.mem_cons.mp hw with heq | htail
        · subst heq
          refine ⟨by simp, ?_⟩
          intro ch hch
          rcases List.mem_cons.mp hch with heq2 | hmem
          · rw [heq2]
            simpa using hc
          · have := List.mem_takeWhile_imp hmem
            simpa using this
        · have hlen : (rest.dropWhile (fun d => !d.isWhitespace)).length ≤ n := by
            have hd := (List.dropWhile_sublist
              (l := rest) (fun d => !d.isWhitespace)).length_le
            simp at hs
            omega
          exact ih _ hlen w htail

/-- Dropping a `p`-prefix does not change the count of non-`p`
characters. -/
theorem countP_dropWhile_eq (p : Char → Bool) (l : Str) :
    (l.dropWhile p).countP (fun c => !p c) = l.countP (fun c => !p c) := by
  induction l with
  | nil => simp
  | cons c t ih =>
    by_cases hc : p c
    · rw [List.dropWhile_cons_of_pos hc, ih,
        List.countP_cons_of_neg _ _ (by simp [hc])]
    · rw [List.dropWhile_cons_of_neg hc]

/-- Trimming only removes whitespace, so the trimmed length is at least
the number of non-whitespace characters. -/
theorem countP_le_trimWs_length (s : Str) :
    s.countP (fun c => !c.isWhitespace) ≤ (trimWs s).length := by
  unfold trimWs
  calc s.countP (fun c => !c.isWhitespace)
      = (s.dropWhile Char.isWhitespace).countP (fun c => !c.isWhitespace) :=
        (countP_dropWhile_eq Char.isWhitespace s).symm
    _ = (s.dropWhile Char.isWhitespace).reverse.countP
          (fun c => !c.isWhitespace) :=
        (List.countP_reverse (fun c => !c.isWhitespace)
          (s.dropWhile Char.isWhitespace)).symm
    _ = ((s.dropWhile Char.isWhitespace).reverse.dropWhile
          Char.isWhitespace).countP (fun c => !c.isWhitespace) :=
        (countP_dropWhile_eq Char.isWhitespace _).symm
    _ ≤ ((s.dropWhile Char.isWhitespace).reverse.dropWhile
          Char.isWhitespace).length := List.countP_le_length _
    _ = (((s.dropWhile Char.isWhitespace).reverse.dropWhile
          Char.isWhitespace).reverse).length := (List.length_reverse _).symm

/-- Joining `k` nonempty whitespace-free words yields at least `k`
non-whitespace characters. -/
theorem countP_joinSpace_ge : ∀ words : List Str,
    (∀ w ∈ words, w ≠ [] ∧ ∀ ch ∈ w, ch.isWhitespace = false) →
    words.length ≤ (joinSpace words).countP (fun c => !c.isWhitespace) := by
  intro words
  induction words with
  | nil => intro _; simp [joinSpace]
  | cons w ws ih =>
    intro hall
    cases ws with
    | nil =>
      have hw := hall w (List.mem_cons_self _ _)
      have : (joinSpace [w]).countP (fun c => !c.isWhitespace) = w.length := by
        rw [show joinSpace [w] = w from rfl]
        rw [List.countP_eq_length.mpr]
        intro a ha
        simp [hw.2 a ha]
      rw [this]
      simp only [List.length_cons, List.length_nil]
      have : 0 < w.length := List.length_pos.mpr hw.1
      omega
    | cons x t =>
      have hw := hall w (List.mem_cons_self _ _)
      have hws : ∀ v ∈ x :: t, v ≠ [] ∧
          ∀ ch ∈ v, ch.isWhitespace = false :=
        fun v hv => hall v (List.mem_cons_of_mem _ hv)
      have hj : joinSpace (w :: x :: t) = w ++ ' ' :: joinSpace (x :: t) :=
        rfl
      rw [hj, List.countP_append,
        List.countP_cons_of_neg _ _ (by simp)]
      have hwc : w.countP (fun c => !c.isWhitespace) = w.length := by
        rw [List.countP_eq_length]
        intro a ha
        simp [hw.2 a ha]
      have hrec := ih hws
      rw [hwc]
      simp only [List.length_cons] at hrec ⊢
      have : 0 < w.length := List.length_pos.mpr hw.1
      omega

/-- `chunkLoop` on a window fitting in one chunk. -/
theorem chunkLoop_small {chunkSize overlap : Nat} {r : List Str}
    (h : r.length ≤ chunkSize) :
    chunkLoop chunkSize overlap r = [r] := by
  rw [chunkLoop]
  exact if_pos h

/-- `chunkLoop` when more than one chunk remains. -/
theorem chunkLoop_step {chunkSize overlap : Nat} {r : List Str}
    (h1 : ¬ r.length ≤ chunkSize) (h2 : overlap < chunkSize) :
    chunkLoop chunkSize overlap r =
      r.take chunkSize ::
        chunkLoop chunkSize overlap (r.drop (chunkSize - overlap)) := by
  conv_lhs => rw [chunkLoop]
  rw [if_neg h1, dif_pos h2]

/-- With a positive step the chunker always produces at least one
chunk. -/
theorem chunkLoop_ne_nil {chunkSize overlap : Nat} (h2 : overlap < chunkSize)
    (r : List Str) : chunkLoop chunkSize overlap r ≠ [] := by
  by_cases h : r.length ≤ chunkSize
  · rw [chunkLoop_small h]
    simp
  · rw [chunkLoop_step h h2]
    simp

/-- Every chunk except possibly the last holds exactly `chunkSize`
words. -/
theorem chunkLoop_dropLast_len {chunkSize overlap : Nat}
    (h2 : overlap < chunkSize) :
    ∀ (n : Nat) (r : List Str), r.length ≤ n →
      ∀ g ∈ (chunkLoop chunkSize overlap r).dropLast,
        g.length = chunkSize := by
  intro n
  induction n with
  | zero =>
    intro r hr g hg
    have hnil : r = [] := List.eq_nil_of_length_eq_zero (Nat.le_zero.mp hr)
    subst hnil
    rw [chunkLoop_small (by simp)] at hg
    simp at hg
  | succ n ih =>
    intro r hr g hg
    by_cases h : r.length ≤ chunkSize
    · rw [chunkLoop_small h] at hg
      simp at hg
    · rw [chunkLoop_step h h2,
        List.dropLast_cons_of_ne_nil (chunkLoop_ne_nil h2 _)] at hg
      rcases List.mem_cons.mp hg with heq | htail
      · rw [heq, List.length_take]
        omega
      · have hlen : (r.drop (chunkSize - overlap)).length ≤ n := by
          rw [List.length_drop]
          omega
        exact ih _ hlen g htail

/-- Every word of every chunk comes from the original word list. -/
theorem chunkLoop_mem_words {chunkSize overlap : Nat}
    (h2 : overlap < chunkSize) :
    ∀ (n : Nat) (r : List Str), r.length ≤ n →
      ∀ g ∈ chunkLoop chunkSize overlap r, ∀ w ∈ g, w ∈ r := by
  intro n
  induction n with
  | zero =>
    intro r hr g hg w hw
    have hnil : r = [] := List.eq_nil_of_length_eq_zero (Nat.le_zero.mp hr)
    subst hnil
    rw [chunkLoop_small (by simp)] at hg
    simp at hg
    subst hg
    simp at hw
  | succ n ih =>
    intro r hr g hg w hw
    by_cases h : r.length ≤ chunkSize
    · rw [chunkLoop_small h] at hg
      simp at hg
      subst hg
      exact hw
    · rw [chunkLoop_step h h2] at hg
      rcases List.mem_cons.mp hg with heq | htail
      · rw [heq] at hw
        exact List.take_subset _ _ hw
      · have hlen : (r.drop (chunkSize - overlap)).length ≤ n := by
          rw [List.length_drop]
          omega
        exact List.drop_subset _ _ (ih _ hlen g htail w hw)

/-- Filtering an indexed list whose predicate can only fail on the last
element keeps a contiguous index range. -/
theorem withIdx_filter_range (P : Str → Bool) :
    ∀ (l : List Str) (i : Nat),
      (∀ a ∈ l.dropLast, P a = true) →
      ∃ n, ((withIdx i l).filter (fun q => P q.2)).map Prod.fst =
        List.range' i n := by
  intro l
  induction l with
  | nil =>
    intro i _
    exact ⟨0, by simp [withIdx]⟩
  | cons a t ih =>
    intro i h
    cases t with
    | nil =>
      by_cases hP : P a
      · refine ⟨1, ?_⟩
        simp [withIdx, hP]
      · refine ⟨0, ?_⟩
        simp [withIdx, hP]
    | cons b t2 =>
      have ha : P a = true := h a (by simp)
      have ht : ∀ x ∈ (b :: t2).dropLast, P x = true := by
        intro x hx
        apply h
        rw [List.dropLast_cons₂]
        exact List.mem_cons_of_mem _ hx
      obtain ⟨n, hn⟩ := ih (i + 1) ht
      refine ⟨n + 1, ?_⟩
      rw [show withIdx i (a :: b :: t2) =
        (i, a) :: withIdx (i + 1) (b :: t2) from rfl]
      rw [List.filter_cons_of_pos (by simpa using ha), List.map_cons, hn,
        List.range'_succ]

/-- C6: for every PDF text, when every embed call and every upsert
succeeds, the stored `chunk_index` values form a contiguous range
`[0, n)`: only the final chunk of `ChunkText(text, 500, 50)` can fall
under the 50-character trim threshold, because every earlier chunk holds
exactly 500 nonempty words and hence at least 500 non-whitespace
characters. -/
theorem pdf_chunk_indices_contiguous (text : Str) :
    ∃ n, (storedChunkRecords text).map Prod.fst = List.range n := by
  have hpred : ∀ c ∈ (goChunkText text 500 50).dropLast,
      decide (50 ≤ (trimWs c).length) = true := by
    intro c hc
    unfold goChunkText at hc
    by_cases h0 : text.length = 0
    · simp [h0] at hc
    · rw [if_neg h0] at hc
      by_cases hw : fieldsGo text = []
      · simp only [hw, if_true] at hc
        simp at hc
      · rw [if_neg hw] at hc
        rw [← List.map_dropLast] at hc
        obtain ⟨g, hg, hgc⟩ := List.mem_map.mp hc
        have hglen : g.length = 500 :=
          chunkLoop_dropLast_len (by omega) (fieldsGo text).length
            (fieldsGo text) (Nat.le_refl _) g hg
        have hgmem : g ∈ chunkLoop 500 50 (fieldsGo text) :=
          List.dropLast_subset _ hg
        have hwords : ∀ w ∈ g, w ≠ [] ∧
            ∀ ch ∈ w, ch.isWhitespace = false := by
          intro w hw2
          exact fieldsGo_sound text.length text (Nat.le_refl _) w
            (chunkLoop_mem_words (by omega) (fieldsGo text).length
              (fieldsGo text) (Nat.le_refl _) g hgmem w hw2)
        have hcount := countP_joinSpace_ge g hwords
        have htrim := countP_le_trimWs_length (joinSpace g)
        rw [hglen] at hcount
        rw [← hgc]
        simp only [decide_eq_true_eq]
        omega
  obtain ⟨n, hn⟩ := withIdx_filter_range
    (fun c => decide (50 ≤ (trimWs c).length)) (goChunkText text 500 50) 0
    hpred
  refine ⟨n, ?_⟩
  rw [List.range_eq_range']
  rw [← hn]
  rfl

/-- C7 counterexample: a stream that completes without any internal error
still fails the claimed `session · status+ · sources · token* · done`
order, because the very first emitted event is `status "Loading..."`
(before `session`) and another `status "Processing..."` separates
`sources` from the tokens. -/
theorem searchStream_claimed_order_fails :
    specClaimedShape (searchStream (some "s1")
      ⟨"new-id", .ok (), .ok [], ["hello"], .ok ()⟩) = false ∧
    (searchStream (some "s1")
      ⟨"new-id", .ok (), .ok [], ["hello"], .ok ()⟩).getLast? =
        some .doneE ∧
    (searchStream (some "s1")
      ⟨"new-id", .ok (), .ok [], ["hello"], .ok ()⟩).all
        (fun e => !isErrorEvent e) = true := by
  refine ⟨?_, ?_, ?_⟩ <;> decide

/-- C7 (amended): a stream that completes without an internal error emits
exactly one `status "Loading..."`, then the `session` event, then three
further `status` events, then `sources`, then one more `status`, then the
token events, then exactly one `done`; and in every stream (also failing
ones) exactly one terminal event (`done` or `error`) is emitted, and it
comes last. -/
theorem searchStream_event_order :
    (∀ (sessionId : Option String) (env : StreamEnv) (docs : List RagDoc),
      env.embedRes = .ok () → env.searchRes = .ok docs →
      env.llamaRes = .ok () →
      searchStream sessionId env =
        [.statusE "Loading...", .sessionE (finalSessionIdOf sessionId env),
         .statusE "Searching...", .statusE "Searching...",
         .statusE "Filtering...", .sourcesE (finalDocsOf docs).length,
         .statusE "Processing..."] ++
          env.tokens.map RagEvent.tokenE ++ [.doneE]) ∧
    (∀ (sessionId : Option String) (env : StreamEnv),
      (searchStream sessionId env).countP
          (fun e => isTerminalEvent e) = 1 ∧
      ∃ e, (searchStream sessionId env).getLast? = some e ∧
        isTerminalEvent e = true) := by
  constructor
  · rintro sessionId ⟨nid, er, sr, toks, lr⟩ docs he hs hl
    simp only at he hs hl
    subst he
    subst hs
    subst hl
    simp [searchStream]
  · rintro sessionId ⟨nid, er, sr, toks, lr⟩
    have htoks0 : (toks.map RagEvent.tokenE).countP
        (fun e => isTerminalEvent e) = 0 := by
      rw [List.countP_map]
      rw [List.countP_eq_zero]
      intro a _
      simp [Function.comp, isTerminalEvent]
    cases er with
    | error e =>
      constructor
      · simp [searchStream, isTerminalEvent]
      · exact ⟨.errorE e, by simp [searchStream], rfl⟩
    | ok u =>
      cases u
      cases sr with
      | error e =>
        constructor
        · simp [searchStream, isTerminalEvent]
        · exact ⟨.errorE e, by simp [searchStream], rfl⟩
      | ok docs =>
        cases lr with
        | error e =>
          constructor
          · simp only [searchStream, List.countP_append, htoks0]
            simp [isTerminalEvent]
          · exact ⟨.errorE e, by
              simp [searchStream, List.getLast?_cons, List.getLast?_concat], rfl⟩
        | ok u2 =>
          cases u2
          constructor
          · simp only [searchStream, List.countP_append, htoks0]
            simp [isTerminalEvent]
          · exact ⟨.doneE, by
              simp [searchStream, List.getLast?_cons, List.getLast?_concat], rfl⟩

/-- Witness for C7 (amended): the success-path trace of a concrete stream
has the amended shape, and its terminal-event count is one. -/
theorem searchStream_event_order_witness :
    searchStream (some "s1") ⟨"new-id", .ok (), .ok [], ["hi"], .ok ()⟩ =
      [.statusE "Loading...",
       .sessionE (finalSessionIdOf (some "s1")
         ⟨"new-id", .ok (), .ok [], ["hi"], .ok ()⟩),
       .statusE "Searching...", .statusE "Searching...",
       .statusE "Filtering...", .sourcesE (finalDocsOf []).length,
       .statusE "Processing..."] ++
        (["hi"].map RagEvent.tokenE) ++ [.doneE] :=
  searchStream_event_order.1 (some "s1")
    ⟨"new-id", .ok (), .ok [], ["hi"], .ok ()⟩ [] rfl rfl rfl

/-- C9: when no session with the given id exists, `addMessage` inserts the
auto-created session under a freshly generated uuid instead of the given
`session_id`: afterwards there is still no session with the given id, yet
the new message row references that id — a dangling reference, while a
session does exist under the fresh uuid.  (The claim, like the spec's
"auto-creates the session if missing", expects the session to exist under
the given id.) -/
theorem addMessage_missing_session (db : HistoryDB)
    (freshId sessionId role : String) (content : Str)
    (sources : Option String)
    (hmiss : getSession db sessionId = none)
    (hne : freshId ≠ sessionId) :
    getSession (addMessage db freshId sessionId role content sources)
      sessionId = none ∧
    (sessionId, role, content, sources) ∈
      (addMessage db freshId sessionId role content sources).messages ∧
    getSession (addMessage db freshId sessionId role content sources)
      freshId ≠ none := by
  have hsess1 : getSession (createSession db freshId
      (strL "Auto-created Session")) sessionId = none := by
    unfold getSession createSession at *
    rw [List.find?_eq_none] at hmiss ⊢
    intro x hx
    rcases List.mem_append.mp hx with hl | hr
    · exact hmiss x hl
    · simp at hr
      subst hr
      simpa using hne
  have hstep : addMessage db freshId sessionId role content sources =
      { createSession db freshId (strL "Auto-created Session") with
        messages := (createSession db freshId
          (strL "Auto-created Session")).messages ++
            [(sessionId, role, content, sources)] } := by
    unfold addMessage
    rw [hmiss]
    simp only [hsess1]
    by_cases hrole : role == "user" <;> simp [hrole]
  refine ⟨?_, ?_, ?_⟩
  · rw [hstep]
    exact hsess1
  · rw [hstep]
    simp
  · rw [hstep]
    have : getSession (createSession db freshId
        (strL "Auto-created Session")) freshId ≠ none := by
      unfold getSession createSession
      intro hnone
      rw [List.find?_eq_none] at hnone
      exact hnone (freshId, strL "Auto-created Session")
        (List.mem_append.mpr (Or.inr (List.mem_singleton.mpr rfl)))
        (by simp)
    exact this

/-- Witness for C9: on an empty database, `addMessage` under session id
`sess-1` with fresh uuid `uuid-1` leaves `sess-1` nonexistent while the
message row references it. -/
theorem addMessage_missing_session_witness :
    getSession (addMessage ⟨[], []⟩ "uuid-1" "sess-1" "user" (strL "hi")
      none) "sess-1" = none ∧
    ("sess-1", "user", strL "hi", (none : Option String)) ∈
      (addMessage ⟨[], []⟩ "uuid-1" "sess-1" "user" (strL "hi")
        none).messages ∧
    getSession (addMessage ⟨[], []⟩ "uuid-1" "sess-1" "user" (strL "hi")
      none) "uuid-1" ≠ none :=
  addMessage_missing_session ⟨[], []⟩ "uuid-1" "sess-1" "user" (strL "hi")
    none rfl (by decide)

end LastArchive
